import Mathlib

/-!
# sanabutton-dl: a verification development of `download.go`

The program fetches a manifest of buttons, flattens it and downloads one
`.mp3` per button through a bounded pool of tasks.  The development embeds
`flat`, `toValidFilename`, `createFile`, the per-button task and `main` as
pure functions that return the trace of effects they perform.

Go strings are modelled as lists of characters.  Calls into the network, the
file system and third-party libraries are fields of an environment `Env`;
`path/filepath` is modelled in its Unix form, the one whose separator is `/`.
-/

set_option autoImplicit false

namespace SanaButton

/-! ## Strings, errors, JSON values -/

/-- A Go string. -/
abbrev GoString := List Char

/-- A Go `error` value, identified with its message. -/
structure GoError where
  msg : GoString
  deriving DecidableEq, Repr

/-- A JSON value as `encoding/json` reads it from a text. -/
inductive JSON where
  | null : JSON
  | bool : Bool → JSON
  | num : GoString → JSON
  | str : GoString → JSON
  | arr : List JSON → JSON
  | obj : List (GoString × JSON) → JSON

/-- The struct `Button` of download.go: `FileName` has the tag `file-name`,
`Value` (an `any`) the tag `value`; the zero value is `{"", nil}`. -/
structure Button where
  FileName : GoString
  Value : JSON

/-! ## `flat` -/

/-- The capacity `flat` reserves: the first loop of `flat`, summing `len(v)`. -/
def flatTotalLen {α : Type} (s : List (List α)) : Nat :=
  s.foldl (fun totalLen v => totalLen + v.length) 0

/-- The function `flat` of download.go: the second loop appends every sub-slice
to `result`, which starts empty (with capacity `flatTotalLen s`). -/
def flat {α : Type} (s : List (List α)) : List α :=
  s.foldl (fun result v => result ++ v) []

/-! ## `path/filepath` (Unix) -/

/-- The path elements between separators: `"a//b"` gives `["a", "", "b"]`. -/
def splitSlash : GoString → List GoString
  | [] => [[]]
  | c :: cs =>
    if c = '/' then [] :: splitSlash cs
    else
      match splitSlash cs with
      | [] => [[c]]
      | seg :: segs => (c :: seg) :: segs

/-- The loop of `filepath.Clean` over path elements, `out` holding the elements
kept so far, last one first: empty and `.` elements are dropped, a `..` removes
the element before it when there is one to remove, is kept when the path is not
rooted and is dropped when it is. -/
def cleanSegs (rooted : Bool) : List GoString → List GoString → List GoString
  | out, [] => out.reverse
  | out, seg :: rest =>
    if seg = [] ∨ seg = ['.'] then cleanSegs rooted out rest
    else if seg = ['.', '.'] then
      match out with
      | top :: out' =>
        if top = ['.', '.'] then cleanSegs rooted (seg :: out) rest
        else cleanSegs rooted out' rest
      | [] => if rooted then cleanSegs rooted [] rest else cleanSegs rooted [seg] rest
    else cleanSegs rooted (seg :: out) rest

/-- The function `filepath.Clean`: the shortest path equivalent to `path` by
lexical processing; the empty result is `.`. -/
def filepathClean (path : GoString) : GoString :=
  let rooted := path.head? = some '/'
  let segs := cleanSegs rooted [] (splitSlash path)
  let out := (if rooted then ['/'] else []) ++ List.intercalate ['/'] segs
  if out = [] then ['.'] else out

/-- The function `filepath.Split`: the directory ends with the last separator of
`path` (it is empty when there is none), the file is what follows it. -/
def filepathSplit (path : GoString) : GoString × GoString :=
  ((path.reverse.dropWhile (fun c => c ≠ '/')).reverse,
   (path.reverse.takeWhile (fun c => c ≠ '/')).reverse)

/-- The function `filepath.Dir`: the cleaned directory of `path`. -/
def filepathDir (path : GoString) : GoString :=
  filepathClean (filepathSplit path).1

/-- The function `filepath.Join`: leading empty elements are ignored, the rest
is joined with separators and cleaned; no element at all gives the empty path. -/
def filepathJoin (elem : List GoString) : GoString :=
  match elem.dropWhile (fun e => e = []) with
  | [] => []
  | rest => filepathClean (List.intercalate ['/'] rest)

/-! ## The sanitizer -/

/-- The struct `filenamify.Options`, with the one field download.go sets. -/
structure Options where
  Replacement : GoString

/-- The function `toValidFilename` of download.go, over the library function it
calls: `filenamify.Filenamify(str, filenamify.Options{Replacement: "_"})`. -/
def toValidFilename (Filenamify : GoString → Options → Except GoError GoString)
    (str : GoString) : Except GoError GoString :=
  Filenamify str ⟨"_".toList⟩

/-- A path separator, `/` or `\`. -/
def isSeparator (c : Char) : Bool := c = '/' || c = '\\'

/-- A reserved character, one of `< > : " | ? *`. -/
def isReserved (c : Char) : Bool :=
  c = '<' || c = '>' || c = ':' || c = '"' || c = '|' || c = '?' || c = '*'

/-- A control character: U+0000 to U+001F and U+007F to U+009F. -/
def isControl (c : Char) : Bool :=
  decide (c.toNat < 32) || (decide (127 ≤ c.toNat) && decide (c.toNat ≤ 159))

/-- A character the sanitizer does not let through. -/
def isDisallowed (c : Char) : Bool := isSeparator c || isReserved c || isControl c

/-- Modelled from the spec: `filenamify.Filenamify`, a function of the library
github.com/flytam/filenamify whose source is not in the repository.  Spec 4.3:
"given an arbitrary string, produce a string safe for use as a single filesystem
path segment (no path separators, no reserved/control characters), substituting
a fixed replacement character for any disallowed character", a "total function
over all string inputs". -/
def Filenamify (str : GoString) (options : Options) : Except GoError GoString :=
  .ok (str.flatMap fun c => if isDisallowed c then options.Replacement else [c])

/-! ## Decoding the manifest: `json.Unmarshal(body, &btns)` with `btns [][][]Button` -/

/-- The body of an HTTP response: how many bytes it delivers, the error reading
it ends with (if any), and the JSON value its text denotes (`none` when the
scanner of `encoding/json` rejects the text: a syntax error, or arrays and
objects nested deeper than it allows). -/
structure Body where
  size : Nat
  readErr : Option GoError
  json : Option JSON

/-- The name of a JSON value in the messages of `json.UnmarshalTypeError`. -/
def JSON.kind : JSON → GoString
  | .null => "null".toList
  | .bool _ => "bool".toList
  | .num _ => "number".toList
  | .str _ => "string".toList
  | .arr _ => "array".toList
  | .obj _ => "object".toList

/-- The error `json.Unmarshal` returns when a JSON value does not fit a Go type. -/
def unmarshalTypeError (value : JSON) (goType : String) : GoError :=
  ⟨"json: cannot unmarshal ".toList ++ value.kind ++ " into Go value of type ".toList
    ++ goType.toList⟩

/-- The error `json.Unmarshal` returns when the value of a member does not fit
the field of `Button` the member stands for. -/
def unmarshalFieldError (value : GoString) (field goType : String) : GoError :=
  ⟨"json: cannot unmarshal ".toList ++ value ++ " into Go struct field Button.".toList
    ++ field.toList ++ " of type ".toList ++ goType.toList⟩

/-- The number a sequence of decimal digits denotes. -/
def digitsVal (ds : GoString) : Nat :=
  ds.foldl (fun n c => 10 * n + (c.toNat - '0'.toNat)) 0

/-- The power of ten of exponent `n`. -/
def pow10 : Nat → Nat
  | 0 => 1
  | n + 1 => 10 * pow10 n

/-- The number `2^1024 - 2^970`, half a unit in the last place above the largest
float64: the least magnitude `strconv.ParseFloat(s, 64)` rounds out of range. -/
def float64Limit : Nat :=
  179769313486231580793728971405303415079934132710037826936173778980444968292764750946649017977587207096330286416692887910946555547851940402630657488671505820681908902000708383676273854845817711531764475730270069855571366959622842914819860834936475292719074168444365510704342711559699508093042880177904174497792

/-- Whether `mant * 10^e / 10^frac` is `float64Limit` or more. -/
def scaledOverflows (mant frac e : Nat) : Bool :=
  if frac ≤ e then decide (float64Limit ≤ mant * pow10 (e - frac))
  else decide (float64Limit * pow10 (frac - e) ≤ mant)

/-- Whether `strconv.ParseFloat(s, 64)` fails with a range error on the JSON
number literal `s` (a sign, digits, a fraction, an exponent): its magnitude is
`float64Limit` or more.  A literal too small for a float64 is read as zero
without an error. -/
def overflowsFloat64 (s : GoString) : Bool :=
  let s := if s.head? = some '-' then s.tail else s
  let int := s.takeWhile Char.isDigit
  let rest := s.dropWhile Char.isDigit
  let frac :=
    match rest with
    | '.' :: r => r.takeWhile Char.isDigit
    | _ => []
  let rest :=
    match rest with
    | '.' :: r => r.dropWhile Char.isDigit
    | _ => rest
  let mant := digitsVal (int ++ frac)
  match rest with
  | _ :: '-' :: ds =>
    decide (float64Limit * pow10 (digitsVal ds + frac.length) ≤ mant)
  | _ :: '+' :: ds => scaledOverflows mant frac.length (digitsVal ds)
  | _ :: ds => scaledOverflows mant frac.length (digitsVal ds)
  | [] => scaledOverflows mant frac.length 0

mutual
/-- The first number literal of a JSON value, in the order of the text, that
does not fit a float64: the one `json.Unmarshal` fails on when it decodes the
value into an `any` (numbers become float64, everything else is accepted). -/
def JSON.badNumber : JSON → Option GoString
  | .null => none
  | .bool _ => none
  | .num s => if overflowsFloat64 s then some s else none
  | .str _ => none
  | .arr xs => badNumberOfList xs
  | .obj kvs => badNumberOfMembers kvs
/-- The first such number literal among the elements of an array. -/
def badNumberOfList : List JSON → Option GoString
  | [] => none
  | x :: xs =>
    match x.badNumber with
    | some s => some s
    | none => badNumberOfList xs
/-- The first such number literal among the members of an object. -/
def badNumberOfMembers : List (GoString × JSON) → Option GoString
  | [] => none
  | kv :: kvs =>
    match kv.2.badNumber with
    | some s => some s
    | none => badNumberOfMembers kvs
end

/-- ASCII lower case of a character. -/
def asciiLower (c : Char) : Char :=
  if 'A'.toNat ≤ c.toNat ∧ c.toNat ≤ 'Z'.toNat then Char.ofNat (c.toNat + 32) else c

/-- How `encoding/json` matches an object key with a field name: exactly or
ignoring case (for the names `file-name` and `value` no character outside ASCII
folds to one of their letters). -/
def keyMatches (key : GoString) (name : String) : Bool :=
  key.map asciiLower = name.toList

/-- One member of a JSON object decoded into a `Button`: `file-name` takes a
string (null leaves the field as it is, anything else is a type error), `value`
takes any value whose numbers fit a float64 (a number that does not is a type
error), any other key is ignored. -/
def decodeMember (b : Button) (kv : GoString × JSON) : Except GoError Button :=
  if keyMatches kv.1 "file-name" then
    match kv.2 with
    | .str s => .ok ⟨s, b.Value⟩
    | .null => .ok b
    | v => .error (unmarshalFieldError v.kind "file-name" "string")
  else if keyMatches kv.1 "value" then
    match kv.2.badNumber with
    | some s => .error (unmarshalFieldError ("number ".toList ++ s) "value" "float64")
    | none => .ok ⟨b.FileName, kv.2⟩
  else .ok b

/-- The members of an object decoded one after the other into a `Button`. -/
def decodeMembers : Button → List (GoString × JSON) → Except GoError Button
  | b, [] => .ok b
  | b, kv :: kvs =>
    match decodeMember b kv with
    | .error e => .error e
    | .ok b' => decodeMembers b' kvs

/-- A JSON value decoded into a `Button`: an object fills the fields, null
leaves the zero value, anything else is a type error. -/
def decodeButton : JSON → Except GoError Button
  | .obj kvs => decodeMembers ⟨[], .null⟩ kvs
  | .null => .ok ⟨[], .null⟩
  | v => .error (unmarshalTypeError v "main.Button")

/-- The elements of a JSON array decoded one after the other, stopping at the
first type error (the one `json.Unmarshal` reports). -/
def decodeAll {α : Type} (f : JSON → Except GoError α) : List JSON → Except GoError (List α)
  | [] => .ok []
  | x :: xs =>
    match f x with
    | .error e => .error e
    | .ok a =>
      match decodeAll f xs with
      | .error e => .error e
      | .ok as => .ok (a :: as)

/-- A JSON value decoded into a Go slice of type `goType`: an array is decoded
element by element, null gives the nil slice, anything else is a type error. -/
def decodeSlice {α : Type} (goType : String) (f : JSON → Except GoError α) :
    JSON → Except GoError (List α)
  | .arr xs => decodeAll f xs
  | .null => .ok []
  | v => .error (unmarshalTypeError v goType)

/-- The call `json.Unmarshal(body, &btns)` of `main`, `btns` being declared
`[][][]Button`: a syntax error when the text is not JSON, else the value decoded
through three levels of slices. -/
def Unmarshal (body : Body) : Except GoError (List (List (List Button))) :=
  match body.json with
  | none => .error ⟨"invalid character looking for beginning of value".toList⟩
  | some v =>
    decodeSlice "[][][]main.Button"
      (decodeSlice "[][]main.Button" (decodeSlice "[]main.Button" decodeButton)) v

/-- The call `io.ReadAll(resp.Body)`. -/
def ReadAll (body : Body) : Except GoError Body :=
  match body.readErr with
  | some e => .error e
  | none => .ok body

/-! ## The environment and the trace of effects -/

/-- An HTTP response as download.go reads it: `Status`, `StatusCode`,
`Request.URL.String()` (the URL after redirects) and `Body`. -/
structure Response where
  Status : GoString
  StatusCode : Int
  RequestURL : GoString
  Body : Body

/-- What the program calls and does not define: `norm.NFC.String`,
`url.JoinPath`, `http.Get`, `url.PathUnescape`, `filenamify.Filenamify`,
`os.MkdirAll`, `os.Create`, the write side of `io.Copy`, `runtime.GOMAXPROCS(0)`. -/
structure Env where
  NFC : GoString → GoString
  JoinPath : GoString → List GoString → Except GoError GoString
  Get : GoString → Except GoError Response
  PathUnescape : GoString → Except GoError GoString
  Filenamify : GoString → Options → Except GoError GoString
  MkdirAll : GoString → Nat → Option GoError
  Create : GoString → Option GoError
  Write : GoString → Nat → Option GoError
  GOMAXPROCS : Nat

/-- An effect of the program, in the order the trace lists them. -/
inductive Event where
  | get : GoString → Event
  | mkdirAll : GoString → Nat → Event
  | create : GoString → Event
  | copy : GoString → Nat → Event
  | printf : GoString → Event
  | printlnErr : GoError → Event
  | println : GoString → Event
  | fatal : GoError → Event
  deriving DecidableEq

/-- What a function that may fail leaves behind: its trace and its error (`none`
for nil). -/
abbrev Outcome := List Event × Option GoError

/-- The constant `outDir` of `main`. -/
def outDir : GoString := "sounds".toList

/-- The constant `baseUrl` of `main`. -/
def baseUrl : GoString := "https://www.natorisana.love".toList

/-- The function `createFile` of download.go: `os.MkdirAll(filepath.Dir(path),
perm)`, then `os.Create(path)` when the directories exist. -/
def createFile (env : Env) (path : GoString) (perm : Nat) : Outcome :=
  let dir := filepathDir path
  match env.MkdirAll dir perm with
  | some err => ([.mkdirAll dir perm], some err)
  | none => ([.mkdirAll dir perm, .create path], env.Create path)

/-- The call `io.Copy(file, resp.Body)`: the error of the read or of the write,
else the number of bytes copied. -/
def Copy (env : Env) (path : GoString) (body : Body) : Except GoError Nat :=
  match body.readErr with
  | some e => .error e
  | none =>
    match env.Write path body.size with
    | some e => .error e
    | none => .ok body.size

/-- The line `log.Printf("[%d/%d] %s [%d KB]\n", i+1, total, urlPath, kbSize)`. -/
def progressLine (i total : Nat) (urlPath : GoString) (kbSize : Nat) : GoString :=
  "[".toList ++ (Nat.repr (i + 1)).toList ++ "/".toList ++ (Nat.repr total).toList
    ++ "] ".toList ++ urlPath ++ " [".toList ++ (Nat.repr kbSize).toList ++ " KB]\n".toList

/-! ## The download task -/

/-- The body of the closure `main` hands to `sg.Go` for the button `v` at index
`i`: the request, the status check, the destination path, the file, the copy and
the progress line, each failing call returning its error at once. -/
def downloadTask (env : Env) (total i : Nat) (v : Button) : Outcome :=
  let urlPath := env.NFC v.FileName ++ ".mp3".toList
  match env.JoinPath baseUrl ["sounds".toList, urlPath] with
  | .error err => ([], some err)
  | .ok u =>
    match env.Get u with
    | .error err => ([.get u], some err)
    | .ok resp =>
      match env.PathUnescape resp.RequestURL with
      | .error err => ([.get u], some err)
      | .ok decodedUrl =>
        if resp.StatusCode < 200 ∨ resp.StatusCode > 299 then
          ([.get u], some ⟨resp.Status ++ ": ".toList ++ decodedUrl⟩)
        else
          match toValidFilename env.Filenamify (filepathClean (filepathSplit urlPath).1) with
          | .error err => ([.get u], some err)
          | .ok validDirname =>
            match toValidFilename env.Filenamify (filepathClean (filepathSplit urlPath).2) with
            | .error err => ([.get u], some err)
            | .ok validFilename =>
              let path := filepathJoin [outDir, validDirname, validFilename]
              match createFile env path 0o755 with
              | (evs, some err) => (.get u :: evs, some err)
              | (evs, none) =>
                match Copy env path resp.Body with
                | .error err => (.get u :: evs, some err)
                | .ok size =>
                  let kbSize := size / 1024
                  (.get u :: evs ++ [.copy path size,
                    .printf (progressLine i total urlPath kbSize)], none)

/-- The path the task of a button writes to: `filepath.Join(outDir, validDirname,
validFilename)` as `downloadTask` computes it from the NFC-normalized name. -/
def destPath (Filenamify : GoString → Options → Except GoError GoString)
    (name : GoString) : Except GoError GoString :=
  let urlPath := name ++ ".mp3".toList
  match toValidFilename Filenamify (filepathClean (filepathSplit urlPath).1) with
  | .error err => .error err
  | .ok validDirname =>
    match toValidFilename Filenamify (filepathClean (filepathSplit urlPath).2) with
    | .error err => .error err
    | .ok validFilename => .ok (filepathJoin [outDir, validDirname, validFilename])

/-! ## The pool and `main` -/

/-- Modelled from the spec: the group of github.com/fatih/semgroup, a library
whose source is not in the repository.  Spec 4.4: "the pool starts all tasks
(subject to the concurrency limit), waits for all to finish, and collects at
least one representative failure if any occurred; it does not cancel sibling
tasks when one fails".  The group holds the trace of the tasks it ran, in the
order they were handed in, and the errors they returned. -/
structure Group where
  maxWorkers : Nat
  events : List Event
  errs : List GoError

/-- Modelled from the spec: `semgroup.NewGroup(ctx, maxWorkers)`, a group that
has run nothing. -/
def NewGroup (maxWorkers : Nat) : Group := ⟨maxWorkers, [], []⟩

/-- Modelled from the spec: `sg.Go(f)`, which runs the task whatever the tasks
before it returned and keeps its error. -/
def Group.Go (sg : Group) (f : Outcome) : Group :=
  ⟨sg.maxWorkers, sg.events ++ f.1,
    match f.2 with
    | some err => sg.errs ++ [err]
    | none => sg.errs⟩

/-- Modelled from the spec: `sg.Wait()`, nil when no task failed and else "the
(first) error" (spec 4.5). -/
def Group.Wait (sg : Group) : Option GoError := sg.errs.head?

/-- The loop `for i, v := range buttons { sg.Go(...) }` of `main` from index `i`
on, each closure working on its own `i` and `v`. -/
def dispatch (env : Env) (total : Nat) : Nat → List Button → Group → Group
  | _, [], sg => sg
  | i, v :: rest, sg => dispatch env total (i + 1) rest (sg.Go (downloadTask env total i v))

/-- The function `main` from `total := len(buttons)` on: the pool, the loop, the
wait, the error line when `sg.Wait()` is not nil, the line `Done`. -/
def runButtons (env : Env) (buttons : List Button) : List Event :=
  let total := buttons.length
  let maxWorkers := env.GOMAXPROCS
  let sg := dispatch env total 0 buttons (NewGroup maxWorkers)
  sg.events
    ++ (match sg.Wait with
        | some err => [.printlnErr err]
        | none => [])
    ++ [.println "Done".toList]

/-- The function `main` of download.go: every `log.Fatal` ends the trace. -/
def main (env : Env) : List Event :=
  match env.JoinPath baseUrl ["/api/v1/buttons.json".toList] with
  | .error err => [.fatal err]
  | .ok u =>
    match env.Get u with
    | .error err => [.get u, .fatal err]
    | .ok resp =>
      match ReadAll resp.Body with
      | .error err => [.get u, .fatal err]
      | .ok body =>
        match Unmarshal body with
        | .error err => [.get u, .fatal err]
        | .ok btns => .get u :: runButtons env (flat (flat btns))

/-! ## A concrete environment -/

/-- The value of a hexadecimal digit. -/
def hexVal (c : Char) : Option Nat :=
  if '0'.toNat ≤ c.toNat ∧ c.toNat ≤ '9'.toNat then some (c.toNat - '0'.toNat)
  else if 'a'.toNat ≤ c.toNat ∧ c.toNat ≤ 'f'.toNat then some (c.toNat - 'a'.toNat + 10)
  else if 'A'.toNat ≤ c.toNat ∧ c.toNat ≤ 'F'.toNat then some (c.toNat - 'A'.toNat + 10)
  else none

/-- The function `url.PathUnescape` on texts whose escapes are ASCII: `%XY` is
the character of code `XY`, and a `%` that two hexadecimal digits do not follow
is the error `invalid URL escape`. -/
def pathUnescape : GoString → Except GoError GoString
  | [] => .ok []
  | '%' :: a :: b :: rest =>
    match hexVal a, hexVal b with
    | some x, some y =>
      match pathUnescape rest with
      | .error err => .error err
      | .ok out => .ok (Char.ofNat (16 * x + y) :: out)
    | _, _ => .error ⟨"invalid URL escape ".toList ++ ['"', '%', a, b, '"']⟩
  | '%' :: rest => .error ⟨"invalid URL escape ".toList ++ ['"', '%'] ++ rest ++ ['"']⟩
  | c :: rest =>
    match pathUnescape rest with
    | .error err => .error err
    | .ok out => .ok (c :: out)

/-- The function `url.JoinPath` on a base without a path and elements made of
unreserved ASCII characters and `/`: the base, then the cleaned rooted join of
the elements. -/
def joinPath (base : GoString) (elem : List GoString) : Except GoError GoString :=
  .ok (base ++ filepathClean ('/' :: List.intercalate ['/'] elem))

/-- An environment around a server `serve`: names are already in NFC, every
response is the one `serve` gives for the URL, the sanitizer is `Filenamify`
and the file system accepts every directory, file and write. -/
def envOf (serve : GoString → Except GoError Response) : Env where
  NFC := id
  JoinPath := joinPath
  Get := serve
  PathUnescape := pathUnescape
  Filenamify := Filenamify
  MkdirAll := fun _ _ => none
  Create := fun _ => none
  Write := fun _ _ => none
  GOMAXPROCS := 4

/-! ## Inputs the properties are stated at -/

/-- The index in `flat s` of the item at position `j` of the sub-list at position `i`. -/
def flatIndex {α : Type} (s : List (List α)) (i j : Nat) : Nat :=
  ((s.take i).map List.length).sum + j

/-- The JSON object `{"file-name": name, "value": value}`. -/
def buttonJSON (b : GoString × JSON) : JSON :=
  .obj [("file-name".toList, .str b.1), ("value".toList, b.2)]

/-- The JSON text of a manifest three arrays deep, one object per button. -/
def manifestJSON (m : List (List (List (GoString × JSON)))) : JSON :=
  .arr (m.map fun g => .arr (g.map fun h => .arr (h.map buttonJSON)))

/-- The value of the text `[[{"file-name":"a/b"}],[{"file-name":"c"}]]`. -/
def manifestDepth2 : JSON :=
  .arr [.arr [.obj [("file-name".toList, .str "a/b".toList)]],
        .arr [.obj [("file-name".toList, .str "c".toList)]]]

/-- The value of the text `[[[{"file-name":"a/b"}],[{"file-name":"c"}]]]`. -/
def manifestDepth3 : JSON := .arr [manifestDepth2]

/-- The URL of the manifest. -/
def manifestUrl : GoString := "https://www.natorisana.love/api/v1/buttons.json".toList

/-- A server that answers the manifest request with the status and the JSON
value given, and every other request with `200 OK` and 2048 bytes. -/
def serveManifest (status : GoString) (code : Int) (manifest : JSON) (u : GoString) :
    Except GoError Response :=
  if u = manifestUrl then .ok ⟨status, code, u, ⟨64, none, some manifest⟩⟩
  else .ok ⟨"200 OK".toList, 200, u, ⟨2048, none, none⟩⟩


/-- The name the task of a button requests under `sounds` and logs: the
NFC-normalized file name with the extension `.mp3`. -/
def urlPathOf (env : Env) (v : Button) : GoString := env.NFC v.FileName ++ ".mp3".toList

/-- Whether an effect is one a task can have: a request, a directory, a file, a
copy or a progress line. -/
def Event.ofTask : Event → Bool
  | .get _ => true
  | .mkdirAll _ _ => true
  | .create _ => true
  | .copy _ _ => true
  | .printf _ => true
  | .printlnErr _ => false
  | .println _ => false
  | .fatal _ => false

/-- The traces of the tasks of `buttons`, the first of index `i`, one after the
other. -/
def taskTraces (env : Env) (total : Nat) : Nat → List Button → List Event
  | _, [] => []
  | i, v :: rest => (downloadTask env total i v).1 ++ taskTraces env total (i + 1) rest

/-- The errors the tasks of `buttons` return, the first of index `i`. -/
def taskErrors (env : Env) (total : Nat) : Nat → List Button → List GoError
  | _, [] => []
  | i, v :: rest => (downloadTask env total i v).2.toList ++ taskErrors env total (i + 1) rest

/-- The value of the text `[[[{"file-name":"a","value":1e999}]]]`. -/
def manifestBigNumber : JSON :=
  .arr [.arr [.arr [.obj [("file-name".toList, .str "a".toList),
                          ("value".toList, .num "1e999".toList)]]]]

/-- The value of the text `[[[{"file-name":"a/b"}]]]`. -/
def manifestOne : JSON :=
  .arr [.arr [.arr [.obj [("file-name".toList, .str "a/b".toList)]]]]

/-- A server whose every answer has the status given and, as the URL of the
final request, the requested URL followed by `suffix`. -/
def serveStatus (status : GoString) (code : Int) (suffix : GoString) (u : GoString) :
    Except GoError Response :=
  .ok ⟨status, code, u ++ suffix, ⟨2048, none, none⟩⟩

/-- A server that answers `404 Not Found` for `sounds/a/c.mp3` and `200 OK` with
2048 bytes for every other URL. -/
def serveOne404 (u : GoString) : Except GoError Response :=
  if u = "https://www.natorisana.love/sounds/a/c.mp3".toList then
    .ok ⟨"404 Not Found".toList, 404, u, ⟨9, none, none⟩⟩
  else .ok ⟨"200 OK".toList, 200, u, ⟨2048, none, none⟩⟩

/-- The button of name `name`. -/
def buttonOf (name : String) : Button := ⟨name.toList, .null⟩

/-- Whether a path element is one `filepath.Clean` keeps as it is: not empty,
neither `.` nor `..`, without a separator. -/
def isPlainElem (e : GoString) : Bool :=
  decide (e ≠ []) && decide (e ≠ ['.']) && decide (e ≠ ['.', '.']) && decide ('/' ∉ e)
/-! ## Properties of `flat` -/

theorem foldl_append_eq {α : Type} (s : List (List α)) (acc : List α) :
    s.foldl (fun result v => result ++ v) acc = acc ++ s.flatten := by
  induction s generalizing acc with
  | nil => simp
  | cons v s ih => simp [ih]

theorem foldl_length_eq {α : Type} (s : List (List α)) (n : Nat) :
    s.foldl (fun totalLen v => totalLen + v.length) n = n + (s.map List.length).sum := by
  induction s generalizing n with
  | nil => simp
  | cons v s ih => simp [ih, Nat.add_assoc]

theorem flat_eq_flatten {α : Type} (s : List (List α)) : flat s = s.flatten := by
  simp [flat, foldl_append_eq]

theorem flatten_getElem?_flatIndex {α : Type} (s : List (List α)) (i j : Nat) (v : List α)
    (x : α) (hv : s[i]? = some v) (hx : v[j]? = some x) :
    s.flatten[flatIndex s i j]? = some x := by
  induction s generalizing i with
  | nil => simp at hv
  | cons w s ih =>
    cases i with
    | zero =>
      simp at hv
      subst hv
      have hj : j < w.length := by
        rcases List.getElem?_eq_some_iff.mp hx with ⟨h, _⟩
        exact h
      simp [flatIndex, List.getElem?_append_left hj, hx]
    | succ i =>
      simp at hv
      have := ih i hv
      simp only [flatIndex, List.take_succ_cons, List.map_cons, List.sum_cons,
        List.flatten_cons] at this ⊢
      rw [List.getElem?_append_right (by omega)]
      rw [show w.length + ((s.take i).map List.length).sum + j - w.length
        = ((s.take i).map List.length).sum + j by omega]
      exact this

theorem sum_take_mono {α : Type} (s : List (List α)) (i k : Nat) (h : i ≤ k) :
    ((s.take i).map List.length).sum ≤ ((s.take k).map List.length).sum := by
  induction s generalizing i k with
  | nil => simp
  | cons w s ih =>
    cases i with
    | zero => simp
    | succ i =>
      cases k with
      | zero => omega
      | succ k =>
        simp only [List.take_succ_cons, List.map_cons, List.sum_cons]
        have := ih i k (by omega)
        omega

theorem sum_take_succ {α : Type} (s : List (List α)) (i : Nat) (v : List α)
    (hv : s[i]? = some v) :
    ((s.take (i + 1)).map List.length).sum = ((s.take i).map List.length).sum + v.length := by
  rw [List.take_succ, hv]
  simp

theorem flatIndex_lt {α : Type} (s : List (List α)) (i j k l : Nat) (v : List α)
    (hv : s[i]? = some v) (hj : j < v.length) (h : i < k ∨ (i = k ∧ j < l)) :
    flatIndex s i j < flatIndex s k l := by
  unfold flatIndex
  rcases h with h | ⟨rfl, h⟩
  · have h1 := sum_take_succ s i v hv
    have h2 := sum_take_mono s (i + 1) k h
    omega
  · omega

/-- C4: `flat s` is the concatenation of the sub-lists of `s` in their order: its
length is the sum of their lengths (the capacity `flat` reserves), the item at
position `j` of the sub-list at position `i` is at index `flatIndex s i j` of the
result, that index grows with `(i, j)` in first-level-then-second-level order,
and an empty sub-list or an empty `s` contributes nothing. -/
theorem flat_concatenates {α : Type} (s : List (List α)) :
    flat s = s.flatten
    ∧ (flat s).length = (s.map List.length).sum
    ∧ (flat s).length = flatTotalLen s
    ∧ (∀ (i j : Nat) (v : List α) (x : α), s[i]? = some v → v[j]? = some x →
        (flat s)[flatIndex s i j]? = some x)
    ∧ (∀ (i j k l : Nat) (v : List α), s[i]? = some v → j < v.length →
        (i < k ∨ (i = k ∧ j < l)) → flatIndex s i j < flatIndex s k l)
    ∧ (∀ pre post : List (List α), flat (pre ++ [] :: post) = flat (pre ++ post))
    ∧ flat ([] : List (List α)) = [] := by
  refine ⟨flat_eq_flatten s, ?_, ?_, ?_, ?_, ?_, rfl⟩
  · rw [flat_eq_flatten, List.length_flatten]
  · rw [flat_eq_flatten, List.length_flatten, flatTotalLen, foldl_length_eq]; simp
  · intro i j v x hv hx
    rw [flat_eq_flatten]
    exact flatten_getElem?_flatIndex s i j v x hv hx
  · intro i j k l v hv hj h
    exact flatIndex_lt s i j k l v hv hj h
  · intro pre post
    simp [flat_eq_flatten]

/-! ## Properties of the manifest decoding -/

theorem decodeAll_map {α β : Type} (f : JSON → Except GoError α) (g : β → JSON) (h : β → α)
    (xs : List β) (hf : ∀ b ∈ xs, f (g b) = .ok (h b)) :
    decodeAll f (xs.map g) = .ok (xs.map h) := by
  induction xs with
  | nil => rfl
  | cons x xs ih =>
    have hx := hf x (List.mem_cons_self _ _)
    have hxs := ih (fun b hb => hf b (List.mem_cons_of_mem _ hb))
    simp [decodeAll, hx, hxs]

theorem decodeButton_buttonJSON (b : GoString × JSON) (hb : b.2.badNumber = none) :
    decodeButton (buttonJSON b) = .ok ⟨b.1, b.2⟩ := by
  have h1 : keyMatches "file-name".toList "file-name" = true := by decide
  have h2 : keyMatches "value".toList "file-name" = false := by decide
  have h3 : keyMatches "value".toList "value" = true := by decide
  simp only [decodeButton, buttonJSON, decodeMembers, decodeMember, h1, h2, h3, if_true,
    Bool.false_eq_true, if_false, hb]

/-- C6 (as amended): a body that is a JSON array of arrays of arrays of objects
with the members `file-name`, a string, and `value`, any value whose numbers fit
a float64, the shape of `btns [][][]Button`, is decoded without error and
`flat (flat btns)` is the sequence of its buttons in the order of the text; the
text `[[[{"file-name":"a/b"}],[{"file-name":"c"}]]]` gives the names `a/b`, `c`
and `total = 2`. -/
theorem unmarshal_manifest_depth3 (m : List (List (List (GoString × JSON)))) (size : Nat)
    (hm : ∀ g ∈ m, ∀ h ∈ g, ∀ b ∈ h, b.2.badNumber = none) :
    (∃ btns, Unmarshal ⟨size, none, some (manifestJSON m)⟩ = .ok btns
      ∧ (flat (flat btns)).map Button.FileName = (m.flatten.flatten).map Prod.fst
      ∧ (flat (flat btns)).length = (m.flatten.flatten).length)
    ∧ (∃ btns, Unmarshal ⟨size, none, some manifestDepth3⟩ = .ok btns
      ∧ (flat (flat btns)).map Button.FileName = ["a/b".toList, "c".toList]
      ∧ (flat (flat btns)).length = 2) := by
  constructor
  · refine ⟨m.map fun g => g.map fun h => h.map fun b => ⟨b.1, b.2⟩, ?_, ?_, ?_⟩
    · simp only [Unmarshal, manifestJSON, decodeSlice]
      apply decodeAll_map
      intro g hg
      simp only [decodeSlice]
      apply decodeAll_map
      intro h hh
      simp only [decodeSlice]
      apply decodeAll_map
      intro b hb
      exact decodeButton_buttonJSON b (hm g hg h hh b hb)
    · simp [flat_eq_flatten, List.map_flatten, Function.comp_def]
    · simp [flat_eq_flatten, List.length_flatten, Function.comp_def]
  · exact ⟨_, rfl, by decide, by decide⟩

/-- C6 (witness): the manifest `[[[{"file-name":"a/b","value":null}],
[{"file-name":"c","value":1.5e3}]]]`. -/
theorem unmarshal_manifest_depth3_witness :
    ∃ btns, Unmarshal ⟨64, none, some (manifestJSON
        [[[("a/b".toList, .null)], [("c".toList, .num "1.5e3".toList)]]])⟩ = .ok btns
      ∧ (flat (flat btns)).map Button.FileName = ["a/b".toList, "c".toList]
      ∧ (flat (flat btns)).length = 2 :=
  (unmarshal_manifest_depth3
    [[[("a/b".toList, .null)], [("c".toList, .num "1.5e3".toList)]]] 64 (by decide)).1

set_option maxRecDepth 100000 in
/-- C6 (counterexample): the text `[[{"file-name":"a/b"}],[{"file-name":"c"}]]`,
two arrays deep, is not decoded: its objects stand where `btns` has the slices
`[]Button`, `json.Unmarshal` returns a type error and `main` ends in `log.Fatal`
without a request for an asset.  Three arrays deep, a `value` holding the number
`1e999`, outside float64, is a type error as well. -/
theorem unmarshal_manifest_depth2_fails :
    Unmarshal ⟨64, none, some manifestDepth2⟩
        = .error ⟨"json: cannot unmarshal object into Go value of type []main.Button".toList⟩
    ∧ main (envOf (serveManifest "200 OK".toList 200 manifestDepth2))
        = [.get manifestUrl,
           .fatal ⟨"json: cannot unmarshal object into Go value of type []main.Button".toList⟩]
    ∧ main (envOf (serveManifest "200 OK".toList 200 manifestBigNumber))
        = [.get manifestUrl,
           .fatal (unmarshalFieldError "number 1e999".toList "value" "float64")] := by
  exact ⟨rfl, rfl, rfl⟩
/-! ## Properties of the sanitizer -/

/-- C8: for every string `toValidFilename` returns no error and a result without
path separator, reserved character or control character, the input with `_` in
the place of every disallowed character; `x:y` gives `x_y`. -/
theorem toValidFilename_safe (s : GoString) :
    ∃ r, toValidFilename Filenamify s = .ok r
      ∧ (∀ c ∈ r, isSeparator c = false ∧ isReserved c = false ∧ isControl c = false)
      ∧ r = s.map (fun c => if isDisallowed c then '_' else c)
      ∧ toValidFilename Filenamify "x:y".toList = .ok "x_y".toList := by
  refine ⟨s.map (fun c => if isDisallowed c then '_' else c), ?_, ?_, rfl, rfl⟩
  · simp only [toValidFilename, Filenamify]
    congr 1
    induction s with
    | nil => rfl
    | cons c s ih =>
      simp only [List.flatMap_cons, List.map_cons, ih]
      split <;> rfl
  · intro c hc
    simp only [List.mem_map] at hc
    obtain ⟨a, _, rfl⟩ := hc
    by_cases h : isDisallowed a = true
    · simp only [h, if_true]; decide
    · simp only [h]
      simp only [isDisallowed, Bool.or_eq_true, not_or, Bool.not_eq_true] at h
      exact ⟨h.1.1, h.1.2, h.2⟩

/-! ## Properties of the path functions -/

theorem splitSlash_ne_nil (p : GoString) : splitSlash p ≠ [] := by
  induction p with
  | nil => simp [splitSlash]
  | cons c cs ih =>
    unfold splitSlash
    split
    · simp
    · split <;> simp

theorem splitSlash_plain (a : GoString) (ha : '/' ∉ a) : splitSlash a = [a] := by
  induction a with
  | nil => rfl
  | cons c cs ih =>
    simp only [List.mem_cons, not_or] at ha
    have hc : c ≠ '/' := fun h => ha.1 h.symm
    simp [splitSlash, hc, ih ha.2]

theorem splitSlash_append (a rest : GoString) (ha : '/' ∉ a) :
    splitSlash (a ++ '/' :: rest) = a :: splitSlash rest := by
  induction a with
  | nil => simp [splitSlash]
  | cons c cs ih =>
    simp only [List.mem_cons, not_or] at ha
    have hc : c ≠ '/' := fun h => ha.1 h.symm
    simp [splitSlash, hc, ih ha.2]

theorem isPlainElem_iff (e : GoString) :
    isPlainElem e = true ↔ e ≠ [] ∧ e ≠ ['.'] ∧ e ≠ ['.', '.'] ∧ '/' ∉ e := by
  simp [isPlainElem, and_assoc]

theorem cleanSegs_plain (rooted : Bool) (out rest : List GoString) (seg : GoString)
    (h : isPlainElem seg = true) :
    cleanSegs rooted out (seg :: rest) = cleanSegs rooted (seg :: out) rest := by
  obtain ⟨h1, h2, h3, _⟩ := (isPlainElem_iff seg).mp h
  simp [cleanSegs, h1, h2, h3]

theorem cleanSegs_dot (rooted : Bool) (out rest : List GoString) :
    cleanSegs rooted out (['.'] :: rest) = cleanSegs rooted out rest := by
  simp [cleanSegs]

theorem head?_plain (e rest : GoString) (h : isPlainElem e = true) :
    (e ++ rest).head? ≠ some '/' := by
  obtain ⟨h1, _, _, h4⟩ := (isPlainElem_iff e).mp h
  cases e with
  | nil => exact absurd rfl h1
  | cons c cs =>
    simp only [List.mem_cons, not_or] at h4
    simp only [List.cons_append, List.head?_cons, ne_eq, Option.some.injEq]
    exact fun hc => h4.1 hc.symm

theorem filepathClean_plain (e : GoString) (h : isPlainElem e = true) :
    filepathClean e = e := by
  obtain ⟨h1, _, _, h4⟩ := (isPlainElem_iff e).mp h
  have hr := head?_plain e [] h
  rw [List.append_nil] at hr
  have hsegs : cleanSegs false [] [e] = [e] := by
    rw [cleanSegs_plain _ _ _ _ h]
    simp [cleanSegs]
  simp only [filepathClean, hr, splitSlash_plain e h4, decide_False, hsegs]
  simp [List.intercalate, h1]

theorem filepathClean_plain_slash (e : GoString) (h : isPlainElem e = true) :
    filepathClean (e ++ ['/']) = e := by
  obtain ⟨h1, _, _, h4⟩ := (isPlainElem_iff e).mp h
  have hr := head?_plain e ['/'] h
  have hsegs : cleanSegs false [] [e, []] = [e] := by
    rw [cleanSegs_plain _ _ _ _ h]
    simp [cleanSegs]
  simp only [filepathClean, hr, splitSlash_append e [] h4, splitSlash, decide_False, hsegs]
  simp [List.intercalate, h1]

theorem filepathSplit_plain (g : GoString) (hg : '/' ∉ g) : filepathSplit g = ([], g) := by
  have h : ∀ c ∈ g.reverse, (decide (c ≠ '/')) = true := by
    intro c hc
    simp only [List.mem_reverse] at hc
    simp only [ne_eq, decide_not, Bool.not_eq_eq_eq_not, Bool.not_true, decide_eq_false_iff_not]
    exact fun h => hg (h ▸ hc)
  unfold filepathSplit
  rw [List.takeWhile_eq_self_iff.mpr h, List.dropWhile_eq_nil_iff.mpr h]
  simp

theorem filepathSplit_append (d g : GoString) (hg : '/' ∉ g) :
    filepathSplit (d ++ '/' :: g) = (d ++ ['/'], g) := by
  have h : ∀ c ∈ g.reverse, (decide (c ≠ '/')) = true := by
    intro c hc
    simp only [List.mem_reverse] at hc
    simp only [ne_eq, decide_not, Bool.not_eq_eq_eq_not, Bool.not_true, decide_eq_false_iff_not]
    exact fun h => hg (h ▸ hc)
  have hrev : (d ++ '/' :: g).reverse = g.reverse ++ '/' :: d.reverse := by simp
  simp only [filepathSplit, hrev]
  rw [List.dropWhile_append_of_pos h, List.takeWhile_append_of_pos h]
  simp

theorem filepathJoin_plain (d g : GoString) (hd : isPlainElem d = true)
    (hg : isPlainElem g = true) :
    filepathJoin [outDir, d, g] = outDir ++ '/' :: (d ++ '/' :: g) := by
  obtain ⟨_, _, _, d4⟩ := (isPlainElem_iff d).mp hd
  obtain ⟨_, _, _, g4⟩ := (isPlainElem_iff g).mp hg
  have ho : isPlainElem outDir = true := by decide
  have ho4 : '/' ∉ outDir := by decide
  have hne : outDir ≠ [] := by decide
  have hdrop : List.dropWhile (fun e => decide (e = [])) [outDir, d, g] = [outDir, d, g] := by
    simp [List.dropWhile, hne]
  have hint : List.intercalate ['/'] [outDir, d, g] = outDir ++ '/' :: (d ++ '/' :: g) := by
    simp [List.intercalate]
  have hr := head?_plain outDir ('/' :: (d ++ '/' :: g)) ho
  unfold filepathJoin
  rw [hdrop]
  simp only [hint]
  have hsegs : cleanSegs false [] [outDir, d, g] = [outDir, d, g] := by
    rw [cleanSegs_plain _ _ _ _ ho, cleanSegs_plain _ _ _ _ hd, cleanSegs_plain _ _ _ _ hg]
    simp [cleanSegs]
  simp only [filepathClean, hr, splitSlash_append outDir _ ho4, splitSlash_append d _ d4,
    splitSlash_plain g g4, decide_False, hsegs]
  simp [List.intercalate, outDir]

theorem filepathJoin_dot (g : GoString) (hg : isPlainElem g = true) :
    filepathJoin [outDir, ['.'], g] = outDir ++ '/' :: g := by
  obtain ⟨_, _, _, g4⟩ := (isPlainElem_iff g).mp hg
  have ho : isPlainElem outDir = true := by decide
  have ho4 : '/' ∉ outDir := by decide
  have hne : outDir ≠ [] := by decide
  have hdrop : List.dropWhile (fun e => decide (e = [])) [outDir, ['.'], g]
      = [outDir, ['.'], g] := by
    simp [List.dropWhile, hne]
  have hint : List.intercalate ['/'] [outDir, ['.'], g] = outDir ++ '/' :: ('.' :: '/' :: g) := by
    simp [List.intercalate]
  have hr := head?_plain outDir ('/' :: ('.' :: '/' :: g)) ho
  have hdot : splitSlash ('.' :: '/' :: g) = ['.'] :: splitSlash g :=
    splitSlash_append ['.'] g (by decide)
  unfold filepathJoin
  rw [hdrop]
  simp only [hint]
  have hsegs : cleanSegs false [] [outDir, ['.'], g] = [outDir, g] := by
    rw [cleanSegs_plain _ _ _ _ ho, cleanSegs_dot, cleanSegs_plain _ _ _ _ hg]
    simp [cleanSegs]
  simp only [filepathClean, hr, splitSlash_append outDir _ ho4, hdot,
    splitSlash_plain g g4, decide_False, hsegs]
  simp [List.intercalate, outDir]

theorem isPlainElem_mp3 (f : GoString) (hf : '/' ∉ f) :
    isPlainElem (f ++ ".mp3".toList) = true := by
  rw [isPlainElem_iff]
  have hlen : (f ++ ".mp3".toList).length = f.length + 4 := by simp
  refine ⟨?_, ?_, ?_, ?_⟩
  · intro h; rw [h] at hlen; simp at hlen
  · intro h; rw [h] at hlen; simp at hlen
  · intro h; rw [h] at hlen; simp at hlen
  · simp only [List.mem_append, not_or]
    exact ⟨hf, by decide⟩

theorem splitSlash_length (p : GoString) : (splitSlash p).length = p.count '/' + 1 := by
  induction p with
  | nil => rfl
  | cons c cs ih =>
    by_cases hc : c = '/'
    · subst hc
      simp [splitSlash, ih]
    · have hc' : ('/' == c) = false := by
        simp only [beq_eq_false_iff_ne, ne_eq]
        exact fun h => hc h.symm
      unfold splitSlash
      simp only [hc, if_false]
      rcases hs : splitSlash cs with _ | ⟨seg, segs⟩
      · exact absurd hs (splitSlash_ne_nil cs)
      · rw [hs] at ih
        simp only [List.length_cons] at ih ⊢
        rw [List.count_cons]
        simp only [beq_iff_eq]
        rw [if_neg hc]
        omega

theorem splitSlash_no_slash (p seg : GoString) (h : seg ∈ splitSlash p) : '/' ∉ seg := by
  induction p generalizing seg with
  | nil =>
    simp only [splitSlash, List.mem_singleton] at h
    subst h
    simp
  | cons c cs ih =>
    by_cases hc : c = '/'
    · subst hc
      simp only [splitSlash, if_true, List.mem_cons] at h
      rcases h with rfl | h
      · simp
      · exact ih seg h
    · unfold splitSlash at h
      simp only [hc, if_false] at h
      rcases hs : splitSlash cs with _ | ⟨seg', segs⟩
      · exact absurd hs (splitSlash_ne_nil cs)
      · rw [hs] at h ih
        simp only [List.mem_cons] at h
        rcases h with rfl | h
        · have := ih seg' (by simp)
          simp only [List.mem_cons, not_or]
          exact ⟨fun h => hc h.symm, this⟩
        · exact ih seg (by simp [h])

theorem cleanSegs_length_le (rooted : Bool) (segs out : List GoString) :
    (cleanSegs rooted out segs).length ≤ out.length + segs.length := by
  induction segs generalizing out with
  | nil => simp [cleanSegs]
  | cons seg rest ih =>
    unfold cleanSegs
    repeat' split
    all_goals
      refine (ih _).trans ?_
      simp only [List.length_cons, List.length_nil]
      omega

theorem cleanSegs_mem (rooted : Bool) (segs out : List GoString) (s : GoString)
    (h : s ∈ cleanSegs rooted out segs) : s ∈ out ∨ s ∈ segs := by
  induction segs generalizing out with
  | nil => simpa [cleanSegs] using h
  | cons seg rest ih =>
    unfold cleanSegs at h
    split at h
    · rcases ih out h with h | h
      · exact Or.inl h
      · exact Or.inr (List.mem_cons_of_mem _ h)
    · split at h
      · split at h
        · split at h
          · rcases ih _ h with h | h
            · simp only [List.mem_cons] at h
              rcases h with rfl | h
              · exact Or.inr (List.mem_cons_self _ _)
              · exact Or.inl (by simpa using h)
            · exact Or.inr (List.mem_cons_of_mem _ h)
          · rcases ih _ h with h | h
            · exact Or.inl (List.mem_cons_of_mem _ h)
            · exact Or.inr (List.mem_cons_of_mem _ h)
        · split at h
          · rcases ih _ h with h | h
            · exact Or.inl h
            · exact Or.inr (List.mem_cons_of_mem _ h)
          · rcases ih _ h with h | h
            · simp only [List.mem_singleton] at h
              subst h
              exact Or.inr (List.mem_cons_self _ _)
            · exact Or.inr (List.mem_cons_of_mem _ h)
      · rcases ih _ h with h | h
        · simp only [List.mem_cons] at h
          rcases h with rfl | h
          · exact Or.inr (List.mem_cons_self _ _)
          · exact Or.inl h
        · exact Or.inr (List.mem_cons_of_mem _ h)

theorem count_no_slash (s : GoString) (h : '/' ∉ s) : s.count '/' = 0 :=
  List.count_eq_zero.mpr h

theorem count_intercalate (segs : List GoString) (h : ∀ s ∈ segs, '/' ∉ s) :
    (List.intercalate ['/'] segs).count '/' = segs.length - 1 := by
  induction segs with
  | nil => rfl
  | cons a rest ih =>
    cases rest with
    | nil =>
      simp [List.intercalate, count_no_slash a (h a (by simp))]
    | cons b rest =>
      have ih' := ih (fun s hs => h s (List.mem_cons_of_mem _ hs))
      simp only [List.intercalate, List.intersperse, List.flatten_cons, List.count_append,
        List.length_cons] at ih' ⊢
      rw [count_no_slash a (h a (by simp))]
      simp only [List.count_cons_self, List.count_nil]
      omega

theorem filepathClean_count_le (p : GoString) :
    (filepathClean p).count '/' ≤ p.count '/' := by
  unfold filepathClean
  have hfree : ∀ rooted, ∀ s ∈ cleanSegs rooted [] (splitSlash p), '/' ∉ s := by
    intro rooted s hs
    rcases cleanSegs_mem rooted _ _ s hs with h | h
    · simp at h
    · exact splitSlash_no_slash p s h
  by_cases hr : p.head? = some '/'
  · obtain ⟨cs, rfl⟩ : ∃ cs, p = '/' :: cs := by
      cases p with
      | nil => simp at hr
      | cons c cs =>
        simp only [List.head?_cons, Option.some.injEq] at hr
        exact ⟨cs, by rw [hr]⟩
    have hsplit : splitSlash ('/' :: cs) = [] :: splitSlash cs := by simp [splitSlash]
    have hlen : (cleanSegs true [] (splitSlash ('/' :: cs))).length ≤ cs.count '/' + 1 := by
      rw [hsplit]
      have h1 : cleanSegs true [] ([] :: splitSlash cs) = cleanSegs true [] (splitSlash cs) := by
        simp [cleanSegs]
      rw [h1]
      have := cleanSegs_length_le true (splitSlash cs) []
      rw [splitSlash_length] at this
      simpa using this
    have hcount := count_intercalate _ (hfree true)
    simp only [hr, decide_True, if_true, List.singleton_append, reduceCtorEq, if_false,
      List.count_cons_self] at hcount ⊢
    omega
  · have hlen := cleanSegs_length_le false (splitSlash p) []
    rw [splitSlash_length] at hlen
    have hcount := count_intercalate _ (hfree false)
    simp only [hr, decide_False, Bool.false_eq_true, if_false, List.nil_append]
    split
    · simp
    · simp only [List.length_nil, Nat.zero_add] at hlen
      omega

theorem filepathJoin_count_le (x y : GoString) (hx : '/' ∉ x) (hy : '/' ∉ y) :
    (filepathJoin [outDir, x, y]).count '/' ≤ 2 := by
  have hne : outDir ≠ [] := by decide
  have hdrop : List.dropWhile (fun e => decide (e = [])) [outDir, x, y] = [outDir, x, y] := by
    simp [List.dropWhile, hne]
  unfold filepathJoin
  rw [hdrop]
  have h := filepathClean_count_le (List.intercalate ['/'] [outDir, x, y])
  have hc := count_intercalate [outDir, x, y] (by
    intro s hs
    simp only [List.mem_cons, List.mem_singleton, List.not_mem_nil, or_false] at hs
    rcases hs with rfl | rfl | rfl
    · decide
    · exact hx
    · exact hy)
  simp only [List.length_cons, List.length_nil] at hc
  simp only at h ⊢
  omega
/-! ## Properties of the download task -/

theorem createFile_ofTask (env : Env) (path : GoString) (perm : Nat) (ev : Event)
    (hev : ev ∈ (createFile env path perm).1) : ev.ofTask = true := by
  unfold createFile at hev
  cases hm : env.MkdirAll (filepathDir path) perm with
  | some err =>
    simp only [hm, List.mem_singleton] at hev
    subst hev; rfl
  | none =>
    simp only [hm, List.mem_cons, List.mem_singleton, List.not_mem_nil, or_false] at hev
    rcases hev with rfl | rfl <;> rfl

theorem downloadTask_ofTask (env : Env) (total i : Nat) (v : Button) (ev : Event)
    (hev : ev ∈ (downloadTask env total i v).1) : ev.ofTask = true := by
  unfold downloadTask at hev
  cases hu : env.JoinPath baseUrl ["sounds".toList, env.NFC v.FileName ++ ".mp3".toList] with
  | error e => simp only [hu, List.not_mem_nil] at hev
  | ok u =>
    have hget : (Event.get u).ofTask = true := rfl
    cases hr : env.Get u with
    | error e =>
      simp only [hu, hr, List.mem_singleton] at hev
      subst hev; exact hget
    | ok resp =>
      cases hd : env.PathUnescape resp.RequestURL with
      | error e =>
        simp only [hu, hr, hd, List.mem_singleton] at hev
        subst hev; exact hget
      | ok decodedUrl =>
        by_cases hs : resp.StatusCode < 200 ∨ resp.StatusCode > 299
        · simp only [hu, hr, hd, hs, if_true, List.mem_singleton] at hev
          subst hev; exact hget
        · cases h1 : toValidFilename env.Filenamify
            (filepathClean (filepathSplit (env.NFC v.FileName ++ ".mp3".toList)).1) with
          | error e =>
            simp only [hu, hr, hd, hs, if_false, h1, List.mem_singleton] at hev
            subst hev; exact hget
          | ok validDirname =>
            cases h2 : toValidFilename env.Filenamify
              (filepathClean (filepathSplit (env.NFC v.FileName ++ ".mp3".toList)).2) with
            | error e =>
              simp only [hu, hr, hd, hs, if_false, h1, h2, List.mem_singleton] at hev
              subst hev; exact hget
            | ok validFilename =>
              simp only [hu, hr, hd, hs, if_false, h1, h2] at hev
              have hcf := createFile_ofTask env
                (filepathJoin [outDir, validDirname, validFilename]) 0o755
              rcases hc : createFile env
                (filepathJoin [outDir, validDirname, validFilename]) 0o755 with ⟨evs, _ | err⟩
              · rw [hc] at hev hcf
                cases hcopy : Copy env (filepathJoin [outDir, validDirname, validFilename])
                  resp.Body with
                | error e =>
                  simp only [hcopy, List.mem_cons] at hev
                  rcases hev with rfl | hev
                  · exact hget
                  · exact hcf ev hev
                | ok size =>
                  simp only [hcopy, List.mem_cons, List.mem_append, List.mem_singleton,
                    List.not_mem_nil, or_false] at hev
                  rcases hev with (rfl | hev) | rfl | rfl
                  · exact hget
                  · exact hcf ev hev
                  · rfl
                  · rfl
              · rw [hc] at hev hcf
                simp only [List.mem_cons] at hev
                rcases hev with rfl | hev
                · exact hget
                · exact hcf ev hev

theorem downloadTask_ok_trace (env : Env) (total i : Nat) (v : Button)
    (h : (downloadTask env total i v).2 = none) :
    ∃ u path size,
      env.JoinPath baseUrl ["sounds".toList, urlPathOf env v] = .ok u
      ∧ destPath env.Filenamify (env.NFC v.FileName) = .ok path
      ∧ (downloadTask env total i v).1
          = [.get u, .mkdirAll (filepathDir path) 0o755, .create path, .copy path size,
             .printf (progressLine i total (urlPathOf env v) (size / 1024))] := by
  unfold downloadTask at h ⊢
  unfold destPath urlPathOf
  cases hu : env.JoinPath baseUrl ["sounds".toList, env.NFC v.FileName ++ ".mp3".toList] with
  | error e => (simp only [hu] at h; simp at h)
  | ok u =>
    cases hr : env.Get u with
    | error e => (simp only [hu, hr] at h; simp at h)
    | ok resp =>
      cases hd : env.PathUnescape resp.RequestURL with
      | error e => (simp only [hu, hr, hd] at h; simp at h)
      | ok decodedUrl =>
        by_cases hs : resp.StatusCode < 200 ∨ resp.StatusCode > 299
        · (simp only [hu, hr, hd, hs, if_true, if_false] at h; simp at h)
        · cases h1 : toValidFilename env.Filenamify
            (filepathClean (filepathSplit (env.NFC v.FileName ++ ".mp3".toList)).1) with
          | error e => (simp only [hu, hr, hd, hs, h1, if_true, if_false] at h; simp at h)
          | ok validDirname =>
            cases h2 : toValidFilename env.Filenamify
              (filepathClean (filepathSplit (env.NFC v.FileName ++ ".mp3".toList)).2) with
            | error e => (simp only [hu, hr, hd, hs, h1, h2, if_true, if_false] at h; simp at h)
            | ok validFilename =>
              simp only [hu, hr, hd, hs, if_false, h1, h2] at h ⊢
              unfold createFile at h ⊢
              cases hm : env.MkdirAll
                (filepathDir (filepathJoin [outDir, validDirname, validFilename])) 0o755 with
              | some err => (simp only [hm] at h; simp at h)
              | none =>
                simp only [hm] at h ⊢
                cases hc : env.Create (filepathJoin [outDir, validDirname, validFilename]) with
                | some err => (simp only [hc] at h; simp at h)
                | none =>
                  simp only [hc] at h ⊢
                  cases hcopy : Copy env (filepathJoin [outDir, validDirname, validFilename])
                    resp.Body with
                  | error e => (simp only [hcopy] at h; simp at h)
                  | ok size =>
                    simp only [hcopy]
                    exact ⟨u, _, size, rfl, rfl, rfl⟩

/-- C3 (as amended): once the request of a task is answered, a final URL that
does not percent-decode ends the task with the decoding error whatever the
status; when it decodes, a status code below 200 or above 299 ends the task
with the error `<status>: <decoded URL>` and the request as its only effect, and
a status code from 200 to 299 means that an error the task returns is the one of
the sanitizer, of `createFile` or of `io.Copy`. -/
theorem downloadTask_status_error (env : Env) (total i : Nat) (v : Button) (u : GoString)
    (resp : Response)
    (hu : env.JoinPath baseUrl ["sounds".toList, urlPathOf env v] = .ok u)
    (hr : env.Get u = .ok resp) :
    (∀ decodedUrl, env.PathUnescape resp.RequestURL = .ok decodedUrl →
      ((resp.StatusCode < 200 ∨ resp.StatusCode > 299) →
        downloadTask env total i v
          = ([.get u], some ⟨resp.Status ++ ": ".toList ++ decodedUrl⟩))
      ∧ ((200 ≤ resp.StatusCode ∧ resp.StatusCode ≤ 299) →
        ∀ err, (downloadTask env total i v).2 = some err →
          toValidFilename env.Filenamify (filepathClean (filepathSplit (urlPathOf env v)).1)
            = .error err
          ∨ toValidFilename env.Filenamify (filepathClean (filepathSplit (urlPathOf env v)).2)
            = .error err
          ∨ ∃ path, destPath env.Filenamify (env.NFC v.FileName) = .ok path
              ∧ (env.MkdirAll (filepathDir path) 0o755 = some err
                ∨ env.Create path = some err
                ∨ Copy env path resp.Body = .error err)))
    ∧ (∀ err, env.PathUnescape resp.RequestURL = .error err →
        downloadTask env total i v = ([.get u], some err)) := by
  unfold urlPathOf at hu
  unfold urlPathOf destPath
  refine ⟨?_, ?_⟩
  · intro decodedUrl hd
    refine ⟨?_, ?_⟩
    · intro hs
      unfold downloadTask
      simp only [hu, hr, hd, hs, if_true]
    · intro hs err herr
      have hs' : ¬ (resp.StatusCode < 200 ∨ resp.StatusCode > 299) := by omega
      unfold downloadTask at herr
      simp only [hu, hr, hd, hs', if_false] at herr
      cases h1 : toValidFilename env.Filenamify
        (filepathClean (filepathSplit (env.NFC v.FileName ++ ".mp3".toList)).1) with
      | error e =>
        simp only [h1, Option.some.injEq] at herr
        left; rw [herr]
      | ok validDirname =>
        cases h2 : toValidFilename env.Filenamify
          (filepathClean (filepathSplit (env.NFC v.FileName ++ ".mp3".toList)).2) with
        | error e =>
          simp only [h1, h2, Option.some.injEq] at herr
          right; left; rw [herr]
        | ok validFilename =>
          right; right
          refine ⟨filepathJoin [outDir, validDirname, validFilename], by simp only [h1, h2], ?_⟩
          simp only [h1, h2] at herr
          unfold createFile at herr
          cases hm : env.MkdirAll
            (filepathDir (filepathJoin [outDir, validDirname, validFilename])) 0o755 with
          | some e =>
            simp only [hm, Option.some.injEq] at herr
            left; rw [herr]
          | none =>
            simp only [hm] at herr
            cases hc : env.Create (filepathJoin [outDir, validDirname, validFilename]) with
            | some e =>
              simp only [hc, Option.some.injEq] at herr
              right; left; rw [herr]
            | none =>
              simp only [hc] at herr
              cases hcopy : Copy env (filepathJoin [outDir, validDirname, validFilename])
                resp.Body with
              | error e =>
                simp only [hcopy, Option.some.injEq] at herr
                right; right; rw [herr]
              | ok size => simp only [hcopy] at herr; simp at herr
  · intro err hd
    unfold downloadTask
    simp only [hu, hr, hd]

/-- C3 (witness): a `404 Not Found` whose final URL decodes. -/
theorem downloadTask_status_error_witness :
    downloadTask (envOf (serveStatus "404 Not Found".toList 404 [])) 1 0 (buttonOf "a/b")
      = ([.get "https://www.natorisana.love/sounds/a/b.mp3".toList],
         some ⟨"404 Not Found: https://www.natorisana.love/sounds/a/b.mp3".toList⟩) :=
  ((downloadTask_status_error (envOf (serveStatus "404 Not Found".toList 404 [])) 1 0
      (buttonOf "a/b") "https://www.natorisana.love/sounds/a/b.mp3".toList
      ⟨"404 Not Found".toList, 404, "https://www.natorisana.love/sounds/a/b.mp3".toList,
        ⟨2048, none, none⟩⟩ rfl rfl).1
    "https://www.natorisana.love/sounds/a/b.mp3".toList rfl).1 (by decide)

/-- C3 (counterexample): the request is answered `404 Not Found` after a
redirect to a URL whose query holds `%zz`; `url.PathUnescape` fails before the
status is looked at, and the task returns its error, not `404 Not Found: ...`. -/
theorem downloadTask_status_404_undecodable_url :
    (envOf (serveStatus "404 Not Found".toList 404 "?q=%zz".toList)).Get
        "https://www.natorisana.love/sounds/a/b.mp3".toList
      = .ok ⟨"404 Not Found".toList, 404,
          "https://www.natorisana.love/sounds/a/b.mp3?q=%zz".toList, ⟨2048, none, none⟩⟩
    ∧ downloadTask (envOf (serveStatus "404 Not Found".toList 404 "?q=%zz".toList)) 1 0
        (buttonOf "a/b")
      = ([.get "https://www.natorisana.love/sounds/a/b.mp3".toList],
         some ⟨"invalid URL escape \"%zz\"".toList⟩)
    ∧ ¬ ∃ decodedUrl : GoString,
        (downloadTask (envOf (serveStatus "404 Not Found".toList 404 "?q=%zz".toList)) 1 0
          (buttonOf "a/b")).2 = some ⟨"404 Not Found: ".toList ++ decodedUrl⟩ := by
  refine ⟨rfl, rfl, ?_⟩
  rintro ⟨decodedUrl, h⟩
  have h' : (downloadTask (envOf (serveStatus "404 Not Found".toList 404 "?q=%zz".toList)) 1 0
      (buttonOf "a/b")).2 = some ⟨"invalid URL escape \"%zz\"".toList⟩ := rfl
  rw [h'] at h
  simp at h
/-! ## Properties of the destination path -/

theorem destPath_of_plain (san : GoString → Options → Except GoError GoString)
    (d f : GoString) (hd : isPlainElem d = true) (hf : '/' ∉ f)
    (hdir : toValidFilename san d = .ok d)
    (hfile : toValidFilename san (f ++ ".mp3".toList) = .ok (f ++ ".mp3".toList)) :
    destPath san (d ++ '/' :: f) = .ok ("sounds/".toList ++ d ++ '/' :: f ++ ".mp3".toList) := by
  have hg := isPlainElem_mp3 f hf
  have hg4 : '/' ∉ f ++ ".mp3".toList := ((isPlainElem_iff _).mp hg).2.2.2
  unfold destPath
  have hsplit : filepathSplit (d ++ '/' :: f ++ ".mp3".toList)
      = (d ++ ['/'], f ++ ".mp3".toList) := by
    rw [List.append_assoc, List.cons_append]
    exact filepathSplit_append d _ hg4
  simp only [hsplit, filepathClean_plain_slash d hd, filepathClean_plain _ hg, hdir, hfile,
    filepathJoin_plain d _ hd hg]
  simp [outDir]

theorem destPath_of_no_dir (san : GoString → Options → Except GoError GoString)
    (f : GoString) (hf : '/' ∉ f)
    (hdot : toValidFilename san ['.'] = .ok ['.'])
    (hfile : toValidFilename san (f ++ ".mp3".toList) = .ok (f ++ ".mp3".toList)) :
    destPath san f = .ok ("sounds/".toList ++ f ++ ".mp3".toList) := by
  have hg := isPlainElem_mp3 f hf
  have hg4 : '/' ∉ f ++ ".mp3".toList := ((isPlainElem_iff _).mp hg).2.2.2
  unfold destPath
  have hclean : filepathClean [] = ['.'] := by decide
  simp only [filepathSplit_plain _ hg4, hclean, filepathClean_plain _ hg, hdot, hfile,
    filepathJoin_dot _ hg]
  simp [outDir]

/-- C5 (as amended): for a name `f` without separator whose `f.mp3` the sanitizer
leaves unchanged, the directory handed to the sanitizer is `filepath.Clean("")`,
that is `.`, and the destination is `sounds/f.mp3`; for a name `d/f` with one
directory `d`, a plain path element the sanitizer leaves unchanged, the
destination is `sounds/d/f.mp3`; and a task that returns nil has created the
file at the destination of its button. -/
theorem destPath_mirrors_one_level (d f : GoString) (hf : '/' ∉ f)
    (hfile : toValidFilename Filenamify (f ++ ".mp3".toList) = .ok (f ++ ".mp3".toList)) :
    (isPlainElem d = true → toValidFilename Filenamify d = .ok d →
      destPath Filenamify (d ++ '/' :: f)
        = .ok ("sounds/".toList ++ d ++ '/' :: f ++ ".mp3".toList))
    ∧ destPath Filenamify f = .ok ("sounds/".toList ++ f ++ ".mp3".toList)
    ∧ filepathClean (filepathSplit (f ++ ".mp3".toList)).1 = ['.']
    ∧ (∀ (env : Env) (total i : Nat) (v : Button), (downloadTask env total i v).2 = none →
        ∃ path, destPath env.Filenamify (env.NFC v.FileName) = .ok path
          ∧ Event.create path ∈ (downloadTask env total i v).1) := by
  have hg4 : '/' ∉ f ++ ".mp3".toList :=
    ((isPlainElem_iff _).mp (isPlainElem_mp3 f hf)).2.2.2
  refine ⟨?_, ?_, ?_, ?_⟩
  · intro hd hdir
    exact destPath_of_plain Filenamify d f hd hf hdir hfile
  · exact destPath_of_no_dir Filenamify f hf rfl hfile
  · rw [filepathSplit_plain _ hg4]
    exact (by decide : filepathClean [] = ['.'])
  · intro env total i v hok
    obtain ⟨u, path, size, _, hp, htrace⟩ := downloadTask_ok_trace env total i v hok
    exact ⟨path, hp, by rw [htrace]; simp⟩

/-- C5 (witness): the name `a/b` lands at `sounds/a/b.mp3`, the name `c` at
`sounds/c.mp3`. -/
theorem destPath_mirrors_one_level_witness :
    destPath Filenamify "a/b".toList = .ok "sounds/a/b.mp3".toList
    ∧ destPath Filenamify "c".toList = .ok "sounds/c.mp3".toList :=
  ⟨(destPath_mirrors_one_level "a".toList "b".toList (by decide) rfl).1 (by decide) rfl,
   (destPath_mirrors_one_level "a".toList "c".toList (by decide) rfl).2.1⟩

/-- C5 (counterexample): the segments of `a/b/c` are left unchanged by the
sanitizer, yet the destination is `sounds/a_b/c.mp3`: the directory `a/b` is
sanitized as one element.  No sanitizer whose results are free of `/` sends
`a/b/c` to `sounds/a/b/c.mp3`. -/
theorem destPath_two_levels_not_mirrored :
    (toValidFilename Filenamify "a".toList = .ok "a".toList
      ∧ toValidFilename Filenamify "b".toList = .ok "b".toList
      ∧ toValidFilename Filenamify "c.mp3".toList = .ok "c.mp3".toList)
    ∧ destPath Filenamify "a/b/c".toList = .ok "sounds/a_b/c.mp3".toList
    ∧ ¬ ∃ san : GoString → Options → Except GoError GoString,
        (∀ s r, toValidFilename san s = .ok r → '/' ∉ r)
        ∧ destPath san "a/b/c".toList = .ok "sounds/a/b/c.mp3".toList := by
  refine ⟨⟨rfl, rfl, rfl⟩, rfl, ?_⟩
  rintro ⟨san, hsan, hdest⟩
  unfold destPath at hdest
  cases h1 : toValidFilename san
      (filepathClean (filepathSplit ("a/b/c".toList ++ ".mp3".toList)).1) with
  | error e => simp only [h1] at hdest; simp at hdest
  | ok x =>
    cases h2 : toValidFilename san
        (filepathClean (filepathSplit ("a/b/c".toList ++ ".mp3".toList)).2) with
    | error e => simp only [h1, h2] at hdest; simp at hdest
    | ok y =>
      simp only [h1, h2, Except.ok.injEq] at hdest
      have hle := filepathJoin_count_le x y (hsan _ _ h1) (hsan _ _ h2)
      rw [hdest] at hle
      revert hle
      decide
/-! ## Properties of the dispatch loop and of `main` -/

theorem dispatch_eq (env : Env) (total : Nat) (buttons : List Button) (i : Nat) (sg : Group) :
    dispatch env total i buttons sg
      = ⟨sg.maxWorkers, sg.events ++ taskTraces env total i buttons,
          sg.errs ++ taskErrors env total i buttons⟩ := by
  induction buttons generalizing i sg with
  | nil => simp [dispatch, taskTraces, taskErrors]
  | cons v rest ih =>
    rw [dispatch, ih]
    cases h : (downloadTask env total i v).2 <;>
      simp [Group.Go, taskTraces, taskErrors, h]

theorem runButtons_eq (env : Env) (buttons : List Button) :
    runButtons env buttons
      = taskTraces env buttons.length 0 buttons
        ++ ((taskErrors env buttons.length 0 buttons).head?.toList.map Event.printlnErr)
        ++ [.println "Done".toList] := by
  unfold runButtons
  simp only [dispatch_eq, NewGroup, Group.Wait, List.nil_append]
  cases (taskErrors env buttons.length 0 buttons).head? <;> rfl

theorem taskTraces_ofTask (env : Env) (total : Nat) (buttons : List Button) (i : Nat)
    (ev : Event) (hev : ev ∈ taskTraces env total i buttons) : ev.ofTask = true := by
  induction buttons generalizing i with
  | nil => simp [taskTraces] at hev
  | cons v rest ih =>
    simp only [taskTraces, List.mem_append] at hev
    rcases hev with h | h
    · exact downloadTask_ofTask env total i v ev h
    · exact ih (i + 1) h

theorem taskTraces_sublist (env : Env) (total : Nat) (buttons : List Button) (i k : Nat)
    (v : Button) (hv : buttons[k]? = some v) :
    List.Sublist (downloadTask env total (i + k) v).1 (taskTraces env total i buttons) := by
  induction buttons generalizing i k with
  | nil => simp at hv
  | cons w rest ih =>
    cases k with
    | zero =>
      simp at hv
      subst hv
      simp only [taskTraces, Nat.add_zero]
      exact List.sublist_append_left _ _
    | succ k =>
      simp at hv
      have := ih (i + 1) k hv
      rw [show i + 1 + k = i + (k + 1) by omega] at this
      simp only [taskTraces]
      exact this.trans (List.sublist_append_right _ _)

theorem taskErrors_ne_nil (env : Env) (total : Nat) (buttons : List Button) (i : Nat) :
    taskErrors env total i buttons ≠ []
      ↔ ∃ k v, buttons[k]? = some v ∧ (downloadTask env total (i + k) v).2 ≠ none := by
  induction buttons generalizing i with
  | nil => simp [taskErrors]
  | cons w rest ih =>
    simp only [taskErrors, ne_eq, List.append_eq_nil, not_and_or]
    constructor
    · rintro (h | h)
      · refine ⟨0, w, by simp, ?_⟩
        intro hn
        rw [Nat.add_zero] at hn
        simp [hn] at h
      · obtain ⟨k, v, hv, hk⟩ := (ih (i + 1)).mp h
        refine ⟨k + 1, v, by simpa using hv, ?_⟩
        rw [show i + (k + 1) = i + 1 + k by omega]
        exact hk
    · rintro ⟨k, v, hv, hk⟩
      cases k with
      | zero =>
        simp at hv
        subst hv
        left
        cases h : (downloadTask env total i w).2 with
        | none => simp [h] at hk
        | some e => simp
      | succ k =>
        right
        refine (ih (i + 1)).mpr ⟨k, v, by simpa using hv, ?_⟩
        rw [show i + 1 + k = i + (k + 1) by omega]
        exact hk

/-- C1: in the dispatch loop of `main` every button gets its task whatever the
other tasks return: the trace of the run is the traces of all the tasks, each a
function of the environment, the index and the button alone, then the error
line, then `Done`; a task that returns nil has requested its URL and written its
file; the error line is logged exactly when some task returned an error; `Done`
is the last line in both cases. -/
theorem dispatch_isolates_failures (env : Env) (buttons : List Button) :
    (∃ errLine : List Event,
      runButtons env buttons
        = taskTraces env buttons.length 0 buttons ++ errLine ++ [.println "Done".toList]
      ∧ (errLine = [] ∨ ∃ err, errLine = [.printlnErr err]))
    ∧ (∀ (k : Nat) (v : Button), buttons[k]? = some v →
        List.Sublist (downloadTask env buttons.length k v).1 (runButtons env buttons))
    ∧ (∀ (k : Nat) (v : Button), buttons[k]? = some v →
        (downloadTask env buttons.length k v).2 = none →
        ∃ u path size,
          env.JoinPath baseUrl ["sounds".toList, urlPathOf env v] = .ok u
          ∧ destPath env.Filenamify (env.NFC v.FileName) = .ok path
          ∧ Event.get u ∈ runButtons env buttons
          ∧ Event.create path ∈ runButtons env buttons
          ∧ Event.copy path size ∈ runButtons env buttons)
    ∧ ((∃ err, Event.printlnErr err ∈ runButtons env buttons)
        ↔ ∃ k v, buttons[k]? = some v ∧ (downloadTask env buttons.length k v).2 ≠ none)
    ∧ (runButtons env buttons).getLast? = some (.println "Done".toList) := by
  have hsub : ∀ (k : Nat) (v : Button), buttons[k]? = some v →
      List.Sublist (downloadTask env buttons.length k v).1 (runButtons env buttons) := by
    intro k v hv
    have h := taskTraces_sublist env buttons.length buttons 0 k v hv
    rw [Nat.zero_add] at h
    rw [runButtons_eq, List.append_assoc]
    exact h.trans (List.sublist_append_left _ _)
  refine ⟨?_, hsub, ?_, ?_, ?_⟩
  · refine ⟨_, runButtons_eq env buttons, ?_⟩
    cases (taskErrors env buttons.length 0 buttons).head? with
    | none => left; rfl
    | some e => right; exact ⟨e, rfl⟩
  · intro k v hv hok
    obtain ⟨u, path, size, hu, hp, htrace⟩ := downloadTask_ok_trace env buttons.length k v hok
    have hs := (hsub k v hv).subset
    rw [htrace] at hs
    exact ⟨u, path, size, hu, hp, hs (by simp), hs (by simp), hs (by simp)⟩
  · rw [runButtons_eq]
    constructor
    · rintro ⟨err, herr⟩
      simp only [List.mem_append, List.mem_map, List.mem_singleton, reduceCtorEq,
        or_false] at herr
      rcases herr with h | ⟨e, he, _⟩
      · have := taskTraces_ofTask env buttons.length buttons 0 _ h
        simp [Event.ofTask] at this
      · have hne : taskErrors env buttons.length 0 buttons ≠ [] := by
          intro hnil
          simp [hnil] at he
        obtain ⟨k, v, hv, hk⟩ := (taskErrors_ne_nil env buttons.length buttons 0).mp hne
        rw [Nat.zero_add] at hk
        exact ⟨k, v, hv, hk⟩
    · rintro ⟨k, v, hv, hk⟩
      have hne : taskErrors env buttons.length 0 buttons ≠ [] :=
        (taskErrors_ne_nil env buttons.length buttons 0).mpr ⟨k, v, hv, by simpa using hk⟩
      obtain ⟨e, es, hes⟩ := List.exists_cons_of_ne_nil hne
      exact ⟨e, by simp [hes]⟩
  · rw [runButtons_eq]
    simp

/-- C1 (witness): three buttons, the request of the second answered `404 Not
Found`: the other two are downloaded and written, one error line, then `Done`. -/
theorem dispatch_isolates_failures_witness :
    (∃ err, Event.printlnErr err
        ∈ runButtons (envOf serveOne404) [buttonOf "a/b", buttonOf "a/c", buttonOf "a/d"])
    ∧ (runButtons (envOf serveOne404) [buttonOf "a/b", buttonOf "a/c", buttonOf "a/d"]).getLast?
        = some (.println "Done".toList)
    ∧ runButtons (envOf serveOne404) [buttonOf "a/b", buttonOf "a/c", buttonOf "a/d"]
        = [.get "https://www.natorisana.love/sounds/a/b.mp3".toList,
           .mkdirAll "sounds/a".toList 0o755,
           .create "sounds/a/b.mp3".toList,
           .copy "sounds/a/b.mp3".toList 2048,
           .printf "[1/3] a/b.mp3 [2 KB]\n".toList,
           .get "https://www.natorisana.love/sounds/a/c.mp3".toList,
           .get "https://www.natorisana.love/sounds/a/d.mp3".toList,
           .mkdirAll "sounds/a".toList 0o755,
           .create "sounds/a/d.mp3".toList,
           .copy "sounds/a/d.mp3".toList 2048,
           .printf "[3/3] a/d.mp3 [2 KB]\n".toList,
           .printlnErr ⟨"404 Not Found: https://www.natorisana.love/sounds/a/c.mp3".toList⟩,
           .println "Done".toList] :=
  ⟨(dispatch_isolates_failures (envOf serveOne404)
      [buttonOf "a/b", buttonOf "a/c", buttonOf "a/d"]).2.2.2.1.mpr
      ⟨1, buttonOf "a/c", rfl, by decide⟩,
   (dispatch_isolates_failures (envOf serveOne404)
      [buttonOf "a/b", buttonOf "a/c", buttonOf "a/d"]).2.2.2.2,
   by rfl⟩

/-- C2 (the code at the failing input): the manifest request is answered with
status 500 and a body that is a well-formed manifest; `main` decodes the body,
requests the asset and writes the file. -/
theorem main_manifest_status_500_proceeds :
    (serveManifest "500 Internal Server Error".toList 500 manifestOne manifestUrl).map
        (fun resp => resp.StatusCode) = .ok 500
    ∧ main (envOf (serveManifest "500 Internal Server Error".toList 500 manifestOne))
      = [.get manifestUrl,
         .get "https://www.natorisana.love/sounds/a/b.mp3".toList,
         .mkdirAll "sounds/a".toList 0o755,
         .create "sounds/a/b.mp3".toList,
         .copy "sounds/a/b.mp3".toList 2048,
         .printf "[1/1] a/b.mp3 [2 KB]\n".toList,
         .println "Done".toList] := by
  exact ⟨rfl, rfl⟩

end SanaButton
